import Mathlib

/-!
Byte-level model of the core of `src/webview.h` (TeloipInc/webview):
the minimal JSON scanner (`json_parse_c`, `json_parse`), the string
codecs (`url_encode`, `url_decode`, `json_escape`, `json_unescape`,
`hex2nibble`, `hex2char`, `html_from_uri`), and the RPC bridge
(`navigate`, `bind`, `on_message`, `resolve`).

Strings are modelled as lists of byte values (`List Nat`, each entry a
byte 0..255).  C out-parameters become explicit result structures, and
pointers into the scanned buffer become offsets.  Reads that in C touch
the NUL terminator of a `c_str()` buffer are modelled by `List.headD`
with default 0.
-/

namespace Webview

/-- Byte values of an ASCII string literal. -/
def strBytes (s : String) : List Nat := s.data.map Char.toNat

/-! ## String codecs (src/webview.h lines 170-225) -/

/-- Model of `hex2nibble` (webview.h:170): ASCII hex digit to nibble, 0 for
anything else. -/
def hex2nibble (c : Nat) : Nat :=
  if 48 ≤ c ∧ c ≤ 57 then c - 48
  else if 97 ≤ c ∧ c ≤ 102 then 10 + (c - 97)
  else if 65 ≤ c ∧ c ≤ 70 then 10 + (c - 65)
  else 0

/-- Model of `hex2char` (webview.h:184): two hex digits to a byte. -/
def hex2char (p0 p1 : Nat) : Nat := hex2nibble p0 * 16 + hex2nibble p1

/-- `isalnum` on a byte in the C locale (only ASCII digits and letters are
alphanumeric; bytes at or above 128 reach `isalnum` as negative `char`
values on the signed-`char` targets and classify as not alphanumeric). -/
def isalnumB (c : Nat) : Bool :=
  (48 ≤ c && c ≤ 57) || (65 ≤ c && c ≤ 90) || (97 ≤ c && c ≤ 122)

/-- Lowercase hex digit of a nibble, as emitted by `snprintf` with `%02x`. -/
def hexDigitLower (n : Nat) : Nat := if n < 10 then 48 + n else 97 + (n - 10)

/-- Model of `url_encode` (webview.h:188).  Alphanumerics and `- _ . ~` are
kept; any other byte goes through `snprintf(hex, 4, "%%%02x", c)` where `c`
is a plain `char`.  On all three supported backends (x86-64 Linux/GTK,
Windows/MSVC, macOS) `char` is signed, so a byte at or above 0x80 is
promoted to a negative `int`, `%02x` prints its 32-bit two-complement as
eight hex digits (`ffffffXX`), and the 4-byte buffer truncates the output
to the three characters `%ff`.  Bytes below 0x80 are emitted as `%` plus
two lowercase hex digits of the byte value. -/
def url_encode : List Nat → List Nat
  | [] => []
  | c :: rest =>
    if isalnumB c || c = 45 || c = 95 || c = 46 || c = 126 then
      c :: url_encode rest
    else if c < 128 then
      37 :: hexDigitLower (c / 16) :: hexDigitLower (c % 16) :: url_encode rest
    else
      37 :: 102 :: 102 :: url_encode rest

/-- Model of `url_decode` (webview.h:203): `%XX` becomes the decoded byte
(consuming two extra characters), `+` becomes space, anything else is
copied.  A `%` within two bytes of the end reads the NUL terminator of the
`c_str()` buffer, modelled by `headD 0`. -/
def url_decode : List Nat → List Nat
  | [] => []
  | c :: rest =>
    if c = 37 then
      match rest with
      | [] => [hex2char 0 0]
      | [p0] => [hex2char p0 0]
      | p0 :: p1 :: rest2 => hex2char p0 p1 :: url_decode rest2
    else if c = 43 then
      32 :: url_decode rest
    else
      c :: url_decode rest

/-- The 15-byte data-URI marker `data:text/html,` (webview.h:221). -/
def dataTextHtml : List Nat := strBytes "data:text/html,"

/-- Model of `html_from_uri` (webview.h:220): if the first 15 bytes are the
data-URI marker, URL-decode the remainder, else return the empty string. -/
def html_from_uri (s : List Nat) : List Nat :=
  if s.take 15 = dataTextHtml then url_decode (s.drop 15) else []

/-! ## JSON string escape / unescape (webview.h lines 366-424) -/

/-- Model of `json_escape` (webview.h:366): the source is an explicit stub
(`// TODO: implement`) that only wraps the string in quotes and escapes
nothing. -/
def json_escape (s : List Nat) : List Nat := 34 :: s ++ [34]

/-- The single-character escapes accepted by `json_unescape` (webview.h:381):
`\b \f \n \r \t \\ \/ \"`.  `\u` (117) and everything else hit the
`default:` branch and fail. -/
def decodeEsc (c : Nat) : Option Nat :=
  if c = 98 then some 8
  else if c = 102 then some 12
  else if c = 110 then some 10
  else if c = 114 then some 13
  else if c = 116 then some 9
  else if c = 92 then some 92
  else if c = 47 then some 47
  else if c = 34 then some 34
  else none

/-- The `while (n > 2)` loop of `json_unescape` (webview.h:376-416) plus the
final closing-quote check.  `l` is the buffer suffix at the read cursor
(one past the opening quote), `n` the remaining count, `acc` the decoded
output so far.  Reads past the end of `l` model reads of the NUL
terminator and return 0. -/
def unescLoop : List Nat → Nat → List Nat → Option (List Nat)
  | l, n + 3, acc =>
    let c := l.headD 0
    if c = 92 then
      match decodeEsc ((l.drop 1).headD 0) with
      | some c2 => unescLoop (l.drop 2) (n + 1) (acc ++ [c2])
      | none => none
    else
      unescLoop (l.drop 1) (n + 2) (acc ++ [c])
  | l, _, acc => if l.headD 0 = 34 then some acc else none

/-- Model of `json_unescape` (webview.h:371): decode the quoted JSON string
of `n` bytes starting at offset `off` of `buf`.  `none` models the C
return value -1; `some d` models return value `d.length` with decoded
bytes `d` (a NULL output pointer in C only suppresses the writes, the
returned count is the same, so one function models both passes). -/
def json_unescape (buf : List Nat) (off n : Nat) : Option (List Nat) :=
  if (buf.drop off).headD 0 = 34 then unescLoop (buf.drop (off + 1)) n []
  else none

/-! ## Minimal JSON scanner (webview.h lines 227-364) -/

/-- The five scanner states of `json_parse_c` (webview.h:229-235). -/
inductive JState
  | value
  | literal
  | string
  | escape
  | utf8
deriving DecidableEq, Repr

/-- The four non-trivial per-character actions (webview.h:250-256);
`JSON_ACTION_NONE` is modelled by not calling `applyAct` at all. -/
inductive JAct
  | start
  | stop
  | startStruct
  | endStruct
deriving DecidableEq, Repr

/-- The mutable locals of `json_parse_c`: scanner state, tentative key
start `k` (offset of its opening quote; `none` models NULL), the search
counter `index`, nesting `depth`, pending UTF-8 continuation bytes, and
the captured value start (offset; `none` models NULL). -/
structure ScanSt where
  jstate : JState
  kpos : Option Nat
  index : Int
  depth : Int
  utf8b : Nat
  value : Option Nat
deriving DecidableEq, Repr

/-- The out-parameters and return code of `json_parse_c`: `ret` is 0 or
-1, `value` the result span start (offset; `none` models NULL), `valuesz`
the span size. -/
structure JPResult where
  ret : Int
  value : Option Nat
  valuesz : Nat
deriving DecidableEq, Repr

/-- Result of applying an action: either the early `return 0` with the
found span, or the updated locals. -/
inductive ActRes
  | done (r : JPResult)
  | go (st : ScanSt)
deriving DecidableEq, Repr

/-- The action-application block after the state switch
(webview.h:330-361): `END_STRUCT` decrements `depth` first, the depth-1
bookkeeping records value/key starts and ends (returning 0 when the
searched value closes, or comparing the tentative key against the target),
and `START_STRUCT` increments `depth` last.  `pos` is the offset the C
code's `s` points at during this block. -/
def applyAct (key : List Nat) (keysz : Nat) (buf : List Nat) (pos : Nat)
    (a : JAct) (st : ScanSt) : ActRes :=
  let st1 := if a = .endStruct then { st with depth := st.depth - 1 } else st
  let bump := fun (s : ScanSt) =>
    if a = .startStruct then { s with depth := s.depth + 1 } else s
  if st1.depth = 1 then
    if a = .start ∨ a = .startStruct then
      ActRes.go (bump
        (if st1.index = 0 then { st1 with value := some pos }
         else if 0 < keysz ∧ st1.index = 1 then { st1 with kpos := some pos }
         else { st1 with index := st1.index - 1 }))
    else
      if st1.value ≠ none ∧ st1.index = 0 then
        ActRes.done ⟨0, st1.value, pos + 1 - st1.value.getD 0⟩
      else if 0 < keysz ∧ st1.kpos ≠ none then
        let k := st1.kpos.getD 0
        ActRes.go (bump
          (if keysz = pos - k - 1 ∧ (buf.drop (k + 1)).take keysz = key.take keysz
           then { st1 with index := 0, kpos := none }
           else { st1 with index := 2, kpos := none }))
      else
        ActRes.go (bump st1)
  else
    ActRes.go (bump st1)

/-- Character classification inside a string (webview.h:288-307), shared
verbatim with the `// fallthrough` from the literal state: reject control
bytes and 127..191, close on `"`, start an escape on `\`, start a 2-, 3-
or 4-byte UTF-8 sequence on a lead byte, keep anything else (including
bytes 247..255, which the source accepts silently). -/
inductive StrClass
  | bad
  | endStr
  | esc
  | utf8len (k : Nat)
  | keep
deriving DecidableEq, Repr

def stringClass (c : Nat) : StrClass :=
  if c < 32 ∨ (126 < c ∧ c < 192) then .bad
  else if c = 34 then .endStr
  else if c = 92 then .esc
  else if 192 ≤ c ∧ c < 224 then .utf8len 1
  else if 224 ≤ c ∧ c < 240 then .utf8len 2
  else if 240 ≤ c ∧ c < 247 then .utf8len 3
  else .keep

/-- Outcome of processing one character: either the loop body runs to its
end and the scan continues with updated locals, or the function returns
early (0 on a found span, -1 on malformed input). -/
inductive StepRes
  | halt (r : JPResult)
  | cont (st : ScanSt)
deriving DecidableEq, Repr

/-- The shared string-character handling (webview.h:288-307), entered
both from the string state and by the `// fallthrough` out of the literal
case: the incoming state is only changed where the C assigns it, so a
kept character leaves a literal in the literal state. -/
def jstringStep (key : List Nat) (keysz : Nat) (buf : List Nat) (pos : Nat)
    (c : Nat) (st : ScanSt) : StepRes :=
  match stringClass c with
  | .bad => .halt ⟨-1, st.value, 0⟩
  | .endStr =>
    match applyAct key keysz buf pos .stop { st with jstate := .value } with
    | .done r => .halt r
    | .go st2 => .cont st2
  | .esc => .cont { st with jstate := .escape }
  | .utf8len k => .cont { st with jstate := .utf8, utf8b := k }
  | .keep => .cont st

/-- One iteration of the scan loop of `json_parse_c` (webview.h:249-362)
on character `c` at offset `pos`.  The literal case has no `break`
(webview.h:287, `// fallthrough`): when a terminator is seen the
terminator branch runs and control still falls into the string-state
checks, so a tab, newline or carriage-return terminator hits the
`c < 32` check there and returns -1, while space, comma, colon, `]` and
`}` pass those checks untouched and are then re-examined in the value
state (`s--; sz++` in C) — modelled by handling the character inline:
skipped for whitespace, comma and colon, an `END_STRUCT` action for `]`
and `}`. -/
def jstep (key : List Nat) (keysz : Nat) (buf : List Nat) (pos : Nat)
    (c : Nat) (st : ScanSt) : StepRes :=
  match st.jstate with
  | .value =>
    if c = 32 ∨ c = 9 ∨ c = 10 ∨ c = 13 ∨ c = 44 ∨ c = 58 then
      .cont st
    else if c = 34 then
      match applyAct key keysz buf pos .start { st with jstate := .string } with
      | .done r => .halt r
      | .go st2 => .cont st2
    else if c = 123 ∨ c = 91 then
      match applyAct key keysz buf pos .startStruct st with
      | .done r => .halt r
      | .go st2 => .cont st2
    else if c = 125 ∨ c = 93 then
      match applyAct key keysz buf pos .endStruct st with
      | .done r => .halt r
      | .go st2 => .cont st2
    else if c = 116 ∨ c = 102 ∨ c = 110 ∨ c = 45 ∨ (48 ≤ c ∧ c ≤ 57) then
      match applyAct key keysz buf pos .start { st with jstate := .literal } with
      | .done r => .halt r
      | .go st2 => .cont st2
    else
      .halt ⟨-1, st.value, 0⟩
  | .literal =>
    if c = 32 ∨ c = 9 ∨ c = 10 ∨ c = 13 ∨ c = 44 ∨ c = 93 ∨ c = 125 ∨ c = 58 then
      if c = 9 ∨ c = 10 ∨ c = 13 then
        .halt ⟨-1, st.value, 0⟩
      else
        match applyAct key keysz buf (pos - 1) .stop { st with jstate := .value } with
        | .done r => .halt r
        | .go st2 =>
          if c = 125 ∨ c = 93 then
            match applyAct key keysz buf pos .endStruct st2 with
            | .done r => .halt r
            | .go st3 => .cont st3
          else
            .cont st2
    else if c < 32 ∨ 126 < c then
      .halt ⟨-1, st.value, 0⟩
    else
      jstringStep key keysz buf pos c st
  | .string => jstringStep key keysz buf pos c st
  | .escape =>
    if c = 34 ∨ c = 92 ∨ c = 47 ∨ c = 98 ∨ c = 102 ∨ c = 110 ∨ c = 114 ∨
        c = 116 ∨ c = 117 then
      .cont { st with jstate := .string }
    else
      .halt ⟨-1, st.value, 0⟩
  | .utf8 =>
    if c < 128 ∨ 191 < c then
      .halt ⟨-1, st.value, 0⟩
    else
      if st.utf8b - 1 = 0 then
        .cont { st with jstate := .string, utf8b := st.utf8b - 1 }
      else
        .cont { st with utf8b := st.utf8b - 1 }

/-- The scan loop of `json_parse_c`: run `jstep` on each byte in turn.
`rem` is the unread buffer suffix, `pos` the offset of its head in
`buf`.  Running out of buffer models the `for` loop ending with
`return -1`. -/
def jloop (key : List Nat) (keysz : Nat) (buf : List Nat) :
    List Nat → Nat → ScanSt → JPResult
  | [], _, st => ⟨-1, st.value, 0⟩
  | c :: rest, pos, st =>
    match jstep key keysz buf pos c st with
    | .halt r => r
    | .cont st2 => jloop key keysz buf rest (pos + 1) st2

/-- Partial scan of a chunk of the buffer: `some` of the scanner locals
after consuming every byte of the chunk, `none` when the scan returns
early inside it.  Used to state which scanner state a buffer position is
reached in. -/
def scanChunk (key : List Nat) (keysz : Nat) (buf : List Nat) :
    List Nat → Nat → ScanSt → Option ScanSt
  | [], _, st => some st
  | c :: rest, pos, st =>
    match jstep key keysz buf pos c st with
    | .halt _ => none
    | .cont st2 => scanChunk key keysz buf rest (pos + 1) st2

/-- The initial scanner locals of `json_parse_c` (webview.h:236-247):
with a NULL key the `keysz` parameter is reused as the positional index
and `keysz` is zeroed; with a key the index starts at 1. -/
def initSt : Option (List Nat) → Nat → ScanSt
  | none, ksz => ⟨.value, none, (ksz : Int), 0, 0, none⟩
  | some _, _ => ⟨.value, none, 1, 0, 0, none⟩

/-- The key the scan loop compares against (empty for a NULL key). -/
def keyArg : Option (List Nat) → List Nat
  | none => []
  | some k => k

/-- The key size the scan loop uses (zeroed for a NULL key). -/
def keyszArg : Option (List Nat) → Nat → Nat
  | none, _ => 0
  | some _, ksz => ksz

/-- Model of `json_parse_c` (webview.h:227): scan `buf` for the value
named by `key`, or, when `key` is `none` (NULL in C), for the depth-1
token at position `ksz`. -/
def json_parse_c (buf : List Nat) (key : Option (List Nat)) (ksz : Nat) : JPResult :=
  jloop (keyArg key) (keyszArg key ksz) buf buf 0 (initSt key ksz)

/-- The byte span `[value, value + valuesz)` of a scan result. -/
def spanOf (buf : List Nat) (r : JPResult) : List Nat :=
  (buf.drop (r.value.getD 0)).take r.valuesz

/-- Model of `json_parse` (webview.h:426): run the scanner (keyed when
`key` is non-empty, positional otherwise), then copy the span verbatim
unless it starts with a quote, in which case unescape it (returning the
empty string when unescaping fails or decodes zero bytes).  The return
code of `json_parse_c` is ignored by the source, only the out-parameters
are used. -/
def json_parse (s : List Nat) (key : List Nat) (index : Nat) : List Nat :=
  let r := if key = [] then json_parse_c s none index
           else json_parse_c s (some key) key.length
  match r.value with
  | none => []
  | some v =>
    if (s.drop v).headD 0 ≠ 34 then (s.drop v).take r.valuesz
    else
      match json_unescape s v r.valuesz with
      | some d => if 0 < d.length then d else []
      | none => []

/-! ## Binding table and call bridge (webview.h lines 1576-1653) -/

/-- Lookup in the binding table, modelling `std::map::find` on an
association list keyed by the binding name.  `β` stands for the opaque
`binding_ctx_t *` (callback-plus-context pair) stored per name. -/
def mapFind {β : Type} : List (List Nat × β) → List Nat → Option β
  | [], _ => none
  | (k, v) :: rest, name => if k = name then some v else mapFind rest name

/-- Insert-or-assign on the binding table, modelling
`bindings[name] = ...` via `std::map::operator[]`: an existing entry for
`name` is overwritten, otherwise the entry is added. -/
def mapInsert {β : Type} : List (List Nat × β) → List Nat → β → List (List Nat × β)
  | [], name, v => [(name, v)]
  | (k, w) :: rest, name, v =>
    if k = name then (k, v) :: rest
    else (k, w) :: mapInsert rest name v

/-- Model of `webview::bind` (webview.h:1606): registers `b` (the
callback-plus-context pair) under `name` in the binding table.  The
injected JavaScript snippet goes to the rendering surface, not to the
table, and is not modelled. -/
def bind {β : Type} (m : List (List Nat × β)) (name : List Nat) (b : β) :
    List (List Nat × β) :=
  mapInsert m name b

/-- The binding table reached by a sequence of `bind` calls, starting
from the empty table a fresh `webview` object has. -/
def runBinds {β : Type} (ops : List (List Nat × β)) : List (List Nat × β) :=
  ops.foldl (fun m p => bind m p.1 p.2) []

/-- Model of `webview::on_message` (webview.h:1642): decode `id`,
`method` and `params` from the message with `json_parse`, look the method
up in the binding table, and either return without invoking anything
(`none`) or invoke the stored callback once with
`(sequence, params, context)` — modelled as `some (ctx, seq, args)`, the
one invocation the source makes.  The second component is the binding
table after the call: the source reads the table via `find` and, only on
a present key, `operator[]`, so the table is returned unchanged. -/
def on_message {β : Type} (bindings : List (List Nat × β)) (msg : List Nat) :
    Option (β × List Nat × List Nat) × List (List Nat × β) :=
  let seq := json_parse msg (strBytes "id") 0
  let name := json_parse msg (strBytes "method") 0
  let args := json_parse msg (strBytes "params") 0
  match mapFind bindings name with
  | none => (none, bindings)
  | some b => (some (b, seq, args), bindings)

/-- Model of `webview::resolve` (webview.h:1629): the list of scripts the
single dispatched closure evaluates on the UI thread — always exactly one,
chosen by `status`, with `seq` and `result` spliced in verbatim. -/
def resolve (seq : List Nat) (status : Int) (result : List Nat) :
    List (List Nat) :=
  if status = 0 then
    [strBytes "window._rpc[" ++ seq ++ strBytes "].resolve(" ++ result ++
      strBytes "); window._rpc[" ++ seq ++ strBytes "] = undefined"]
  else
    [strBytes "window._rpc[" ++ seq ++ strBytes "].reject(" ++ result ++
      strBytes "); window._rpc[" ++ seq ++ strBytes "] = undefined"]

/-- The default page `webview::navigate` shows for the empty URL
(webview.h:1578). -/
def helloHtml : List Nat := strBytes "<html><body>Hello</body></html>"

/-- Model of `webview::navigate` (webview.h:1576): the URL handed to
`browser_engine::navigate`.  The empty URL becomes a data URI of the
hello page; a URL whose `html_from_uri` is non-empty is re-encoded as a
data URI; anything else passes through unchanged. -/
def navigate (url : List Nat) : List Nat :=
  if url = [] then dataTextHtml ++ url_encode helloHtml
  else if html_from_uri url ≠ [] then dataTextHtml ++ url_encode (html_from_uri url)
  else url

/-! ## Auxiliary notions for stating the claims -/

/-- A lexical unit of the interior of a quoted JSON string as
`json_unescape` consumes it: either a plain byte or a backslash escape
with its selector byte. -/
inductive Tok
  | plain (c : Nat)
  | esc (c : Nat)
deriving DecidableEq, Repr

/-- Serialization of one token back to buffer bytes. -/
def serTok : Tok → List Nat
  | .plain c => [c]
  | .esc c => [92, c]

/-- Serialization of a token list. -/
def serToks (ts : List Tok) : List Nat := (ts.map serTok).flatten

/-- A token is well formed when a plain byte is not a backslash (a plain
backslash would fuse with the following byte into an escape). -/
def wfTokB : Tok → Bool
  | .plain c => decide (c ≠ 92)
  | .esc _ => true

def wfToksB (ts : List Tok) : Bool := ts.all wfTokB

/-- Modelled from the spec: the script-side slot `window._rpc[<id>]`
of the resolution script template. -/
def rpcSlot (seq : List Nat) : List Nat :=
  strBytes "window._rpc[" ++ seq ++ strBytes "]"

/-- Modelled from the spec: a resolution is an evaluated script of the
form `window._rpc[<id>].resolve(<result>)` (when the status is 0) or
`window._rpc[<id>].reject(<result>)` (otherwise), followed by clearing
that table slot; `<result>` is caller-supplied raw JSON spliced in
without re-encoding. -/
def settleScriptSpec (seq : List Nat) (status : Int) (result : List Nat) :
    List Nat :=
  rpcSlot seq ++
    (if status = 0 then strBytes ".resolve(" else strBytes ".reject(") ++
    result ++ strBytes "); " ++ rpcSlot seq ++ strBytes " = undefined"

/-- Modelled from the spec wording of the amended C7 claim: per-byte URL
encoding.  Alphanumerics and `- _ . ~` stay; other bytes below 0x80
become `%` plus two lowercase hex digits of the byte value; bytes at or
above 0x80 become the fixed text `%ff`. -/
def urlEncByteSpec (c : Nat) : List Nat :=
  if isalnumB c || c = 45 || c = 95 || c = 46 || c = 126 then [c]
  else if c < 128 then [37, hexDigitLower (c / 16), hexDigitLower (c % 16)]
  else [37, 102, 102]

/-- The scanned buffer of the C1 scenario. -/
def exBuf : List Nat := strBytes "\x7b\"a\":1,\"b\":[1,2,3],\"c\":\"x\"\x7d"

/-- The inbound message of the C2 scenario. -/
def exMsg : List Nat := strBytes "\x7b\"id\":1,\"method\":\"add\",\"params\":[2,3]\x7d"

/-! ## Helper lemmas -/

theorem serToks_cons (t : Tok) (ts : List Tok) :
    serToks (t :: ts) = serTok t ++ serToks ts := by
  simp [serToks]

theorem url_decode_cons_ne_nil (c : Nat) (rest : List Nat) :
    url_decode (c :: rest) ≠ [] := by
  rcases rest with _ | ⟨p0, _ | ⟨p1, rest2⟩⟩ <;>
    by_cases h37 : c = 37 <;> by_cases h43 : c = 43 <;>
      simp [url_decode, h37, h43]

set_option maxHeartbeats 800000 in
theorem applyAct_done_ret (key : List Nat) (keysz : Nat) (buf : List Nat)
    (pos : Nat) (a : JAct) (st : ScanSt) (r : JPResult)
    (h : applyAct key keysz buf pos a st = ActRes.done r) : r.ret = 0 := by
  cases a <;> simp only [applyAct] at h <;>
    (repeat' split at h)
  all_goals try simp_all
  all_goals subst h
  all_goals rfl

set_option maxHeartbeats 1000000 in
theorem jstep_halt_ret_or_sz (key : List Nat) (keysz : Nat) (buf : List Nat)
    (pos : Nat) (c : Nat) (st : ScanSt) (r : JPResult)
    (h : jstep key keysz buf pos c st = StepRes.halt r) :
    r.ret = 0 ∨ r.valuesz = 0 := by
  obtain ⟨js, kp, idx, dep, u8, v⟩ := st
  cases js <;> simp only [jstep, jstringStep] at h <;> (repeat' split at h)
  all_goals cases h
  all_goals try (exact Or.inr rfl)
  all_goals rename_i heq
  all_goals exact Or.inl (applyAct_done_ret _ _ _ _ _ _ _ heq)

theorem jloop_ret_or_sz (key : List Nat) (keysz : Nat) (buf : List Nat) :
    ∀ (rem : List Nat) (pos : Nat) (st : ScanSt),
      (jloop key keysz buf rem pos st).ret = 0 ∨
      (jloop key keysz buf rem pos st).valuesz = 0 := by
  intro rem
  induction rem with
  | nil => intro pos st; exact Or.inr rfl
  | cons c rest ih =>
    intro pos st
    rcases hstep : jstep key keysz buf pos c st with r | st2
    · rw [jloop, hstep]
      exact jstep_halt_ret_or_sz key keysz buf pos c st r hstep
    · rw [jloop, hstep]
      exact ih _ _

theorem json_parse_c_fail_sz (buf : List Nat) (key : Option (List Nat)) (ksz : Nat)
    (h : (json_parse_c buf key ksz).ret = -1) :
    (json_parse_c buf key ksz).valuesz = 0 := by
  unfold json_parse_c at h ⊢
  rcases jloop_ret_or_sz (keyArg key) (keyszArg key ksz) buf buf 0 (initSt key ksz)
    with h0 | hsz
  · rw [h0] at h; exact absurd h (by decide)
  · exact hsz

theorem jloop_append (key : List Nat) (keysz : Nat) (buf : List Nat) :
    ∀ (pre rest : List Nat) (pos : Nat) (st st2 : ScanSt),
      scanChunk key keysz buf pre pos st = some st2 →
      jloop key keysz buf (pre ++ rest) pos st =
        jloop key keysz buf rest (pos + pre.length) st2 := by
  intro pre
  induction pre with
  | nil =>
    intro rest pos st st2 h
    rw [scanChunk] at h
    injection h with h2
    subst h2
    simp
  | cons c pre ih =>
    intro rest pos st st2 h
    rw [scanChunk] at h
    rcases hstep : jstep key keysz buf pos c st with r | st3
    · rw [hstep] at h; cases h
    · rw [hstep] at h
      dsimp only at h
      rw [List.cons_append, jloop, hstep]
      dsimp only
      have harith : pos + 1 + pre.length = pos + (c :: pre).length := by
        simp only [List.length_cons]
        omega
      rw [ih rest (pos + 1) st3 st2 h, harith]

theorem jstep_literal_ctrl (key : List Nat) (keysz : Nat) (buf : List Nat)
    (pos : Nat) (c : Nat) (st : ScanSt)
    (hst : st.jstate = JState.literal) (hc : c < 32) :
    jstep key keysz buf pos c st = StepRes.halt ⟨-1, st.value, 0⟩ := by
  obtain ⟨js, kp, idx, dep, u8, v⟩ := st
  simp only at hst
  subst hst
  simp only [jstep]
  split
  · rename_i h1
    rw [if_pos (show c = 9 ∨ c = 10 ∨ c = 13 by omega)]
  · rw [if_pos (Or.inl hc)]

theorem jstep_utf8_bad (key : List Nat) (keysz : Nat) (buf : List Nat)
    (pos : Nat) (c : Nat) (st : ScanSt)
    (hst : st.jstate = JState.utf8) (hc : c < 128 ∨ 191 < c) :
    jstep key keysz buf pos c st = StepRes.halt ⟨-1, st.value, 0⟩ := by
  obtain ⟨js, kp, idx, dep, u8, v⟩ := st
  simp only at hst
  subst hst
  simp only [jstep]
  rw [if_pos hc]

theorem jstep_value_bad (key : List Nat) (keysz : Nat) (buf : List Nat)
    (pos : Nat) (c : Nat) (st : ScanSt)
    (hst : st.jstate = JState.value)
    (h1 : ¬(c = 32 ∨ c = 9 ∨ c = 10 ∨ c = 13 ∨ c = 44 ∨ c = 58))
    (h2 : ¬(c = 34))
    (h3 : ¬(c = 123 ∨ c = 91))
    (h4 : ¬(c = 125 ∨ c = 93))
    (h5 : ¬(c = 116 ∨ c = 102 ∨ c = 110 ∨ c = 45 ∨ (48 ≤ c ∧ c ≤ 57))) :
    jstep key keysz buf pos c st = StepRes.halt ⟨-1, st.value, 0⟩ := by
  obtain ⟨js, kp, idx, dep, u8, v⟩ := st
  simp only at hst
  subst hst
  simp only [jstep]
  rw [if_neg h1, if_neg h2, if_neg h3, if_neg h4, if_neg h5]

theorem json_parse_c_halts_at (pre tail : List Nat) (c : Nat)
    (key : Option (List Nat)) (ksz : Nat) (st : ScanSt)
    (hscan : scanChunk (keyArg key) (keyszArg key ksz) (pre ++ c :: tail) pre 0
      (initSt key ksz) = some st)
    (hstep : jstep (keyArg key) (keyszArg key ksz) (pre ++ c :: tail) pre.length c st =
      StepRes.halt ⟨-1, st.value, 0⟩) :
    json_parse_c (pre ++ c :: tail) key ksz = ⟨-1, st.value, 0⟩ := by
  unfold json_parse_c
  rw [jloop_append (keyArg key) (keyszArg key ksz) (pre ++ c :: tail) pre (c :: tail) 0
    (initSt key ksz) st hscan]
  rw [jloop]
  simp only [Nat.zero_add]
  rw [hstep]

theorem json_parse_c_ends_in (buf : List Nat) (key : Option (List Nat)) (ksz : Nat)
    (st : ScanSt)
    (hscan : scanChunk (keyArg key) (keyszArg key ksz) buf buf 0 (initSt key ksz) =
      some st) :
    json_parse_c buf key ksz = ⟨-1, st.value, 0⟩ := by
  unfold json_parse_c
  have h := jloop_append (keyArg key) (keyszArg key ksz) buf buf [] 0 (initSt key ksz)
    st hscan
  rw [List.append_nil] at h
  rw [h, jloop]

theorem mapFind_mapInsert_self {β : Type} (m : List (List Nat × β)) (k : List Nat) (v : β) :
    mapFind (mapInsert m k v) k = some v := by
  induction m with
  | nil => simp [mapInsert, mapFind]
  | cons p rest ih =>
    obtain ⟨k1, w⟩ := p
    by_cases h : k1 = k <;> simp [mapInsert, mapFind, h, ih]

theorem keys_mapInsert_mem {β : Type} (m : List (List Nat × β)) (k : List Nat)
    (v : β) (x : List Nat) :
    x ∈ (mapInsert m k v).map Prod.fst ↔ x ∈ m.map Prod.fst ∨ x = k := by
  induction m with
  | nil => simp [mapInsert]
  | cons p rest ih =>
    obtain ⟨k1, w⟩ := p
    by_cases h : k1 = k
    · subst h; simp [mapInsert]; tauto
    · simp [mapInsert, h, ih]; tauto

theorem keys_nodup_mapInsert {β : Type} (m : List (List Nat × β)) (k : List Nat)
    (v : β) (h : (m.map Prod.fst).Nodup) :
    ((mapInsert m k v).map Prod.fst).Nodup := by
  induction m with
  | nil => simp [mapInsert]
  | cons p rest ih =>
    obtain ⟨k1, w⟩ := p
    simp only [List.map_cons, List.nodup_cons] at h
    by_cases hk : k1 = k
    · subst hk
      have hins : mapInsert ((k1, w) :: rest) k1 v = (k1, v) :: rest := by
        simp [mapInsert]
      rw [hins, List.map_cons, List.nodup_cons]
      exact h
    · simp only [mapInsert, if_neg hk, List.map_cons, List.nodup_cons]
      constructor
      · rw [keys_mapInsert_mem]
        rintro (hmem | heq)
        · exact h.1 hmem
        · exact hk heq
      · exact ih h.2

theorem keys_nodup_runBinds {β : Type} (ops : List (List Nat × β)) :
    ((runBinds ops).map Prod.fst).Nodup := by
  suffices h : ∀ (m : List (List Nat × β)), (m.map Prod.fst).Nodup →
      (((ops.foldl (fun m p => bind m p.1 p.2) m)).map Prod.fst).Nodup by
    exact h [] (by simp)
  induction ops with
  | nil => intro m hm; simpa using hm
  | cons p rest ih =>
    intro m hm
    exact ih _ (keys_nodup_mapInsert m p.1 p.2 hm)

theorem on_message_snd {β : Type} (bindings : List (List Nat × β)) (msg : List Nat) :
    (on_message bindings msg).2 = bindings := by
  simp only [on_message]
  split <;> rfl


theorem unescLoop_wf_fail (rest : List Nat) :
    ∀ (ts : List Tok), wfToksB ts = true → ∀ (n : Nat) (acc : List Nat),
      (serToks ts).length + 2 < n →
      unescLoop (serToks ts ++ 92 :: 117 :: rest) n acc = none := by
  intro ts
  induction ts with
  | nil =>
    intro _ n acc hn
    obtain ⟨m, rfl⟩ : ∃ m, n = m + 3 := ⟨n - 3, by omega⟩
    simp only [serToks, List.map_nil, List.flatten_nil, List.nil_append]
    rw [unescLoop]
    norm_num [decodeEsc]
  | cons t ts ih =>
    intro hwf n acc hn
    have hwf1 : wfTokB t = true := by
      simp only [wfToksB, List.all_cons, Bool.and_eq_true] at hwf; exact hwf.1
    have hwf2 : wfToksB ts = true := by
      simp only [wfToksB, List.all_cons, Bool.and_eq_true] at hwf; exact hwf.2
    rw [serToks_cons] at hn ⊢
    obtain ⟨m, rfl⟩ : ∃ m, n = m + 3 := ⟨n - 3, by omega⟩
    cases t with
    | plain c =>
      have hc : ¬(c = 92) := by simpa [wfTokB] using hwf1
      have hlen : (serToks ts).length + 2 < m + 2 := by
        simp [serTok] at hn; omega
      simp only [serTok, List.cons_append, List.nil_append]
      rw [unescLoop]
      simp only [List.headD_cons, List.drop_succ_cons, List.drop_zero, if_neg hc]
      exact ih hwf2 (m + 2) (acc ++ [c]) hlen
    | esc c =>
      have hlen : (serToks ts).length + 2 < m + 1 := by
        simp [serTok] at hn; omega
      simp only [serTok, List.cons_append, List.nil_append]
      rw [unescLoop]
      simp only [List.headD_cons, List.drop_succ_cons, List.drop_zero, if_pos rfl]
      cases hdec : decodeEsc c with
      | none => simp [hdec]
      | some c2 =>
        simp only [hdec]
        exact ih hwf2 (m + 1) (acc ++ [c2]) hlen

/-! ## Claim theorems -/

/-- C1, counterexample.  The claim says positional index 2 (0-based, no
key) on `{"a":1,"b":[1,2,3],"c":"x"}` yields the string value `"x"`.  The
scanner in fact counts every depth-1 token (keys and values alike), so
index 2 designates the third token, the key string `"b"`: the returned
span is `"b"` with quotes (offset 7, size 3), and `json_parse` returns
`b`, not `x`. -/
theorem C1_counterexample :
    spanOf exBuf (json_parse_c exBuf none 2) = strBytes "\"b\"" ∧
    spanOf exBuf (json_parse_c exBuf none 2) ≠ strBytes "\"x\"" ∧
    json_parse exBuf [] 2 = strBytes "b" ∧
    json_parse exBuf [] 2 ≠ strBytes "x" := by
  decide

/-- C1, amended.  On the buffer `{"a":1,"b":[1,2,3],"c":"x"}`, searching
by key `"b"` returns the span `[1,2,3]` (and `json_parse` returns that
text verbatim).  Positional search counts every depth-1 token, keys and
values alike: index 2 (0-based) returns the span `"b"` (the third token),
and the string value `"x"` sits at index 5, whose span `"x"` includes the
quotes while `json_parse` unescapes it to `x`. -/
theorem C1_scanner_spans :
    spanOf exBuf (json_parse_c exBuf (some (strBytes "b")) 1) = strBytes "[1,2,3]" ∧
    json_parse exBuf (strBytes "b") 0 = strBytes "[1,2,3]" ∧
    spanOf exBuf (json_parse_c exBuf none 2) = strBytes "\"b\"" ∧
    spanOf exBuf (json_parse_c exBuf none 5) = strBytes "\"x\"" ∧
    json_parse exBuf [] 5 = strBytes "x" := by
  decide

/-- C2.  With a binding registered under the name `add`, delivering the
message `{"id":1,"method":"add","params":[2,3]}` to `on_message` invokes
the stored callback exactly once (the single `some` invocation the model
returns), with sequence argument `1` and params argument exactly the text
`[2,3]`, and leaves the binding table unchanged. -/
theorem C2_dispatch_add (β : Type) (b : β) :
    on_message [(strBytes "add", b)] exMsg =
      (some (b, strBytes "1", strBytes "[2,3]"), [(strBytes "add", b)]) := by
  rfl

/-- C3.  For every sequence string, status and result text, `resolve`
posts exactly one script evaluation (a one-element script list), and that
script is precisely the spec template: it targets `window._rpc[seq]`,
takes the resolve path when the status is 0 and the reject path
otherwise, clears the slot afterwards, and splices the result text in as
caller-supplied raw JSON without re-encoding. -/
theorem C3_resolve_single_script (seq : List Nat) (status : Int) (result : List Nat) :
    resolve seq status result = [settleScriptSpec seq status result] := by
  have h1 : strBytes "].resolve(" = strBytes "]" ++ strBytes ".resolve(" := by decide
  have h2 : strBytes "].reject(" = strBytes "]" ++ strBytes ".reject(" := by decide
  have h3 : strBytes "); window._rpc[" = strBytes "); " ++ strBytes "window._rpc[" := by decide
  have h4 : strBytes "] = undefined" = strBytes "]" ++ strBytes " = undefined" := by decide
  by_cases h : status = 0 <;>
    simp [resolve, settleScriptSpec, rpcSlot, h, h1, h2, h3, h4, List.append_assoc]

/-- C4.  Every inbound message whose decoded method name has no entry in
the binding table is silently dropped: `on_message` invokes no callback
(`none`), raises no error (the model is total), and leaves the binding
table unchanged. -/
theorem C4_unknown_method_noop (β : Type) (bindings : List (List Nat × β))
    (msg : List Nat)
    (h : mapFind bindings (json_parse msg (strBytes "method") 0) = none) :
    on_message bindings msg = (none, bindings) := by
  simp only [on_message, h]

/-- C4, witness: a message for the unregistered method `sub` against a
table holding only `add`. -/
theorem C4_witness :
    on_message [(strBytes "add", 0)] (strBytes "\x7b\"id\":2,\"method\":\"sub\",\"params\":[]\x7d") =
      (none, [(strBytes "add", 0)]) :=
  C4_unknown_method_noop Nat [(strBytes "add", 0)]
    (strBytes "\x7b\"id\":2,\"method\":\"sub\",\"params\":[]\x7d") (by decide)

/-- C5.  Every quoted input buffer containing a `\uXXXX` escape is
rejected by `json_unescape`: the buffer opens with a quote, its interior
tokenizes into well-formed units (`ts`, no stray backslash) followed by
the escape `\u` and arbitrary trailing bytes, and the decoder
deterministically returns the failure code (`none`, the model of -1)
instead of decoding. -/
theorem C5_unescape_rejects_unicode (ts : List Tok) (tail : List Nat)
    (hwf : wfToksB ts = true) :
    json_unescape (34 :: (serToks ts ++ 92 :: 117 :: tail)) 0
      (34 :: (serToks ts ++ 92 :: 117 :: tail)).length = none := by
  have h := unescLoop_wf_fail tail ts hwf
    ((34 :: (serToks ts ++ 92 :: 117 :: tail)).length) [] (by simp; omega)
  simpa [json_unescape] using h

/-- C5, witness: the concrete buffer `"aA"` is rejected. -/
theorem C5_witness :
    json_unescape (34 :: (serToks [Tok.plain 97] ++ 92 :: 117 :: strBytes "0041\"")) 0
      (34 :: (serToks [Tok.plain 97] ++ 92 :: 117 :: strBytes "0041\"")).length = none :=
  C5_unescape_rejects_unicode [Tok.plain 97] (strBytes "0041\"") (by decide)

/-- C6.  The claim says `json_unescape (json_escape s) = s` for strings
over the supported escape set, including backslash.  The source
`json_escape` is an explicit stub (`// TODO: implement`) that escapes
nothing, so for the one-byte string `\` it produces the three bytes
`"\"`, whose lone backslash swallows the closing quote as an escape and
makes `json_unescape` fail: the round trip returns the failure code, not
the original string. -/
theorem C6_escape_unescape_stub_fails :
    json_escape [92] = strBytes "\"\\\"" ∧
    json_unescape (json_escape [92]) 0 (json_escape [92]).length = none := by
  decide

/-- C7, counterexample.  The claim says every non-kept byte becomes `%`
plus two hex digits encoding that byte's value.  For byte 0xE9 the source
emits the fixed text `%ff` (signed-char promotion makes `snprintf` print
eight hex digits, truncated by the 4-byte buffer), which is not the hex
encoding `%e9` (nor `%E9`) of 0xE9. -/
theorem C7_counterexample :
    url_encode [233] = strBytes "%ff" ∧
    strBytes "%ff" ≠ strBytes "%e9" ∧
    strBytes "%ff" ≠ strBytes "%E9" := by
  decide

/-- C7, amended.  `url_encode` processes its input byte by byte:
alphanumerics and `- _ . ~` are kept unchanged; every other byte below
0x80 becomes `%` plus two lowercase hex digits of the byte value; every
byte at or above 0x80 becomes the fixed text `%ff` (an artifact of
signed-char truncation on the supported targets). -/
theorem C7_url_encode_per_byte (s : List Nat) :
    url_encode s = (s.map urlEncByteSpec).flatten := by
  induction s with
  | nil => rfl
  | cons c rest ih =>
    simp only [List.map_cons, List.flatten_cons, url_encode, urlEncByteSpec, ih]
    split
    · simp
    · split <;> simp

/-- C8, counterexample.  The claim says a failing scan leaves the result
span empty with a NULL value pointer.  On the unterminated-string buffer
`["x` (positional search, index 0) the scan does return -1 with size 0,
but the value pointer retains the tentative start of the unterminated
string (offset 1) instead of NULL. -/
theorem C8_counterexample :
    (json_parse_c (strBytes "[\"x") none 0).ret = -1 ∧
    (json_parse_c (strBytes "[\"x") none 0).value = some 1 ∧
    (json_parse_c (strBytes "[\"x") none 0).value ≠ none := by
  decide

/-- C8, amended.  `json_parse_c` always terminates and reads only bytes
of the given buffer (structural in the list-based model, which can only
consume the supplied byte list); whenever it fails it returns -1 and
leaves the result size 0, with the value pointer retaining a tentative
start instead of NULL when one was already captured.  Each malformed
class fails universally, the class being characterized by the scanner
state the offending position is reached in (`scanChunk`): a control
character while inside an unquoted literal — including a tab, newline or
carriage-return terminator, which the missing `break` before the string
case (webview.h:287) turns into a failure —, a buffer exhausted inside a
string (unterminated string), an invalid UTF-8 continuation byte, a
buffer exhausted inside an escape (unterminated escape), and an invalid
token byte in value position. -/
theorem C8_scan_failure_empty_span :
    (∀ (buf : List Nat) (key : Option (List Nat)) (ksz : Nat),
        (json_parse_c buf key ksz).ret = -1 →
        (json_parse_c buf key ksz).valuesz = 0) ∧
    (∀ (buf pre tail : List Nat) (c : Nat) (key : Option (List Nat)) (ksz : Nat)
        (st : ScanSt),
        buf = pre ++ c :: tail →
        scanChunk (keyArg key) (keyszArg key ksz) buf pre 0 (initSt key ksz) = some st →
        st.jstate = JState.literal → c < 32 →
        json_parse_c buf key ksz = ⟨-1, st.value, 0⟩) ∧
    (∀ (buf : List Nat) (key : Option (List Nat)) (ksz : Nat) (st : ScanSt),
        scanChunk (keyArg key) (keyszArg key ksz) buf buf 0 (initSt key ksz) = some st →
        st.jstate = JState.string →
        json_parse_c buf key ksz = ⟨-1, st.value, 0⟩) ∧
    (∀ (buf pre tail : List Nat) (c : Nat) (key : Option (List Nat)) (ksz : Nat)
        (st : ScanSt),
        buf = pre ++ c :: tail →
        scanChunk (keyArg key) (keyszArg key ksz) buf pre 0 (initSt key ksz) = some st →
        st.jstate = JState.utf8 → c < 128 ∨ 191 < c →
        json_parse_c buf key ksz = ⟨-1, st.value, 0⟩) ∧
    (∀ (buf : List Nat) (key : Option (List Nat)) (ksz : Nat) (st : ScanSt),
        scanChunk (keyArg key) (keyszArg key ksz) buf buf 0 (initSt key ksz) = some st →
        st.jstate = JState.escape →
        json_parse_c buf key ksz = ⟨-1, st.value, 0⟩) ∧
    (∀ (buf pre tail : List Nat) (c : Nat) (key : Option (List Nat)) (ksz : Nat)
        (st : ScanSt),
        buf = pre ++ c :: tail →
        scanChunk (keyArg key) (keyszArg key ksz) buf pre 0 (initSt key ksz) = some st →
        st.jstate = JState.value →
        ¬(c = 32 ∨ c = 9 ∨ c = 10 ∨ c = 13 ∨ c = 44 ∨ c = 58) →
        ¬(c = 34) →
        ¬(c = 123 ∨ c = 91) →
        ¬(c = 125 ∨ c = 93) →
        ¬(c = 116 ∨ c = 102 ∨ c = 110 ∨ c = 45 ∨ (48 ≤ c ∧ c ≤ 57)) →
        json_parse_c buf key ksz = ⟨-1, st.value, 0⟩) := by
  refine ⟨json_parse_c_fail_sz, ?_, ?_, ?_, ?_, ?_⟩
  · intro buf pre tail c key ksz st hbuf hscan hst hc
    subst hbuf
    exact json_parse_c_halts_at pre tail c key ksz st hscan
      (jstep_literal_ctrl _ _ _ _ _ _ hst hc)
  · intro buf key ksz st hscan _
    exact json_parse_c_ends_in buf key ksz st hscan
  · intro buf pre tail c key ksz st hbuf hscan hst hc
    subst hbuf
    exact json_parse_c_halts_at pre tail c key ksz st hscan
      (jstep_utf8_bad _ _ _ _ _ _ hst hc)
  · intro buf key ksz st hscan _
    exact json_parse_c_ends_in buf key ksz st hscan
  · intro buf pre tail c key ksz st hbuf hscan hst h1 h2 h3 h4 h5
    subst hbuf
    exact json_parse_c_halts_at pre tail c key ksz st hscan
      (jstep_value_bad _ _ _ _ _ _ hst h1 h2 h3 h4 h5)

/-- C8, witness: the tab-terminated literal `[1<TAB>]` (control character
inside an unquoted literal) and the unterminated string `["ab` both fail
with size 0 and the tentative value start (offset 1) retained. -/
theorem C8_witness :
    json_parse_c (strBytes "[1" ++ 9 :: strBytes "]") none 0 = ⟨-1, some 1, 0⟩ ∧
    json_parse_c (strBytes "[\"ab") none 0 = ⟨-1, some 1, 0⟩ :=
  ⟨C8_scan_failure_empty_span.2.1 (strBytes "[1" ++ 9 :: strBytes "]") (strBytes "[1")
      (strBytes "]") 9 none 0 ⟨.literal, none, 0, 1, 0, some 1⟩ rfl (by decide) rfl
      (by decide),
   C8_scan_failure_empty_span.2.2.1 (strBytes "[\"ab") none 0
      ⟨.string, none, 0, 1, 0, some 1⟩ (by decide) rfl⟩

/-- C9.  Along any sequence of `bind` calls from the empty table, every
registered name maps to exactly one callback+context pair (the key list
of the reached table has no duplicates); re-registering a name replaces
its pair without error (the lookup after a `bind` returns the new pair,
last registration wins); and `on_message`, the only other operation that
touches the table, returns it unchanged. -/
theorem C9_binding_table_invariant (β : Type) (ops : List (List Nat × β))
    (name : List Nat) (b : β) (msg : List Nat) :
    ((runBinds ops).map Prod.fst).Nodup ∧
    mapFind (bind (runBinds ops) name b) name = some b ∧
    (on_message (bind (runBinds ops) name b) msg).2 = bind (runBinds ops) name b := by
  refine ⟨keys_nodup_runBinds ops, ?_, on_message_snd _ _⟩
  simp only [bind]
  exact mapFind_mapInsert_self _ _ _

/-- C10.  `webview::navigate` rewrites its URL before handing it to the
engine: the empty string becomes `data:text/html,` plus the URL-encoded
hello page; a URL starting with the exact 15-byte marker
`data:text/html,` becomes the marker plus `url_encode (url_decode rest)`;
every other URL passes through unchanged. -/
theorem C10_navigate_rewrite (url : List Nat) :
    navigate url =
      if url = [] then dataTextHtml ++ url_encode helloHtml
      else if url.take 15 = dataTextHtml then
        dataTextHtml ++ url_encode (url_decode (url.drop 15))
      else url := by
  by_cases h0 : url = []
  · simp [navigate, h0]
  · by_cases hp : url.take 15 = dataTextHtml
    · by_cases hd : url_decode (url.drop 15) = []
      · have hdrop : url.drop 15 = [] := by
          cases hrem : url.drop 15 with
          | nil => rfl
          | cons a b =>
            rw [hrem] at hd
            exact absurd hd (url_decode_cons_ne_nil a b)
        have hurl : url = dataTextHtml := by
          conv_lhs => rw [← List.take_append_drop 15 url]
          rw [hp, hdrop, List.append_nil]
        have hh : html_from_uri url = [] := by
          rw [html_from_uri, if_pos hp, hd]
        have hnav : navigate url = url := by
          simp only [navigate, if_neg h0, hh]
          simp
        rw [if_neg h0, if_pos hp, hd, hnav, hurl]
        rfl
      · rw [if_neg h0, if_pos hp]
        simp [navigate, html_from_uri, h0, hp, hd]
    · rw [if_neg h0, if_neg hp]
      simp [navigate, html_from_uri, h0, hp]

end Webview
